import Mathlib

/-!
Verification of the stateright actor-model core against its specification.

The development shallowly embeds the Rust sources:

* `src/src/actor.rs` — the actor trait (`start`/`advance` with an
  `ActorResult` buffer) and the `actor::model` module lifting a collection of
  actors plus a network to a state machine (`ActorSystem`).
* `src/src/actor/ordered_reliable_link.rs` — the ordered reliable link
  wrapper (`ActorWrapper` with `on_msg`, `on_timeout` and `process_output`).
* `src/examples/linearizable-register.rs` — the ABD replicated register
  actor (`AbdActor.on_msg`).

Machine integers (`u32`/`u64` counters and sequencers) are modelled as `Nat`:
the only arithmetic performed on them is increment, and overflow of a 64-bit
counter would require 2^64 handler invocations.  Rust panics (`todo!`,
out-of-bounds indexing) are modelled by `Option`, with `none` for the panic.

Parts of the repository referenced by these files but absent from `src/`
(the later actor API's `Out` buffer and `Command` type, the `actor::system`
lifting with configurable loss and duplication, `majority`, and the register
message type) are modelled from the specification; each such definition
carries a doc comment beginning `Modelled from the spec:`.
-/

/-- Actor identifier used by the model checker (`type ModelId = usize`). -/
abbrev ModelId : Type := Nat

/-- Indicates the source and destination for a message
(`struct Envelope { src, dst, msg }`). -/
structure Envelope (Msg : Type) where
  src : ModelId
  dst : ModelId
  msg : Msg
deriving DecidableEq, Repr

/-- The network is a `BTreeSet<Envelope<Msg>>`; modelled as the (sorted,
duplicate-free) list of its elements in iteration order. -/
abbrev Network (Msg : Type) : Type := List (Envelope Msg)

/-- Total order on envelopes matching the derived Rust `Ord`
(lexicographic on `src`, `dst`, `msg`). -/
def Envelope.leb {Msg : Type} [LinearOrder Msg] (a b : Envelope Msg) : Bool :=
  decide (a.src < b.src) ||
    (decide (a.src = b.src) &&
      (decide (a.dst < b.dst) ||
        (decide (a.dst = b.dst) && decide (a.msg ≤ b.msg))))

/-- `BTreeSet::insert`: no change when the element is present, otherwise
insertion at the ordered position. -/
def Network.insert {Msg : Type} [LinearOrder Msg] (e : Envelope Msg) :
    Network Msg → Network Msg
  | [] => [e]
  | x :: xs =>
    if e = x then x :: xs
    else if Envelope.leb e x then e :: x :: xs
    else x :: Network.insert e xs

/-- `BTreeSet::remove`: drops the element when present. -/
def Network.remove {Msg : Type} [LinearOrder Msg] (e : Envelope Msg)
    (n : Network Msg) : Network Msg :=
  n.erase e

/-- Outputs with which an actor can respond (`enum ActorOutput`). -/
inductive ActorOutput (Msg : Type) where
  | Send (dst : ModelId) (msg : Msg)
deriving DecidableEq, Repr

/-- Packages up the action, state, and outputs for an actor step
(`struct ActorResult`). -/
structure ActorResult (Msg State : Type) where
  action : String
  state : State
  outputs : List (ActorOutput Msg)

/-- `ActorResult::new`: default action label, the given state, no outputs. -/
def ActorResult.new {Msg State : Type} (state : State) : ActorResult Msg State :=
  { action := "actor step", state := state, outputs := [] }

/-- The early-API actor trait of `actor.rs`: `start` produces the initial
result and `advance` transforms a result buffer on a delivery
(`ActorInput::Deliver` is the single input variant, inlined as the two
`src`/`msg` arguments). -/
structure Actor (Msg State : Type) where
  start : ActorResult Msg State
  advance : ModelId → Msg → ActorResult Msg State → ActorResult Msg State

/-- A collection of actors on a lossy network (`struct ActorSystem`). -/
structure ActorSystem (Msg State : Type) where
  init_network : List (Envelope Msg)
  actors : List (Actor Msg State)

/-- Represents a snapshot in time for the entire actor system
(`struct ActorSystemSnapshot`). -/
structure ActorSystemSnapshot (Msg State : Type) where
  actor_states : List State
  network : Network Msg
deriving DecidableEq, Repr

/-- Folds a list of actor outputs into the network, inserting an envelope
with the given source per `Send` (the loops at actor.rs lines 261-265 and
287-291). -/
def insertOutputs {Msg : Type} [LinearOrder Msg] (src : ModelId)
    (outs : List (ActorOutput Msg)) (net : Network Msg) : Network Msg :=
  outs.foldl
    (fun n o => match o with
      | ActorOutput.Send dst m => Network.insert ⟨src, dst, m⟩ n)
    net

/-- The initialization loop of `ActorSystem::init` (actor.rs lines 257-266):
for each actor in order, push its start state and insert its start outputs
into the network. -/
def initLoop {Msg State : Type} [LinearOrder Msg] (src : ModelId)
    (net : Network Msg) : List (Actor Msg State) → List State × Network Msg
  | [] => ([], net)
  | a :: rest =>
    let r := initLoop (src + 1) (insertOutputs src a.start.outputs net) rest
    (a.start.state :: r.1, r.2)

/-- `ActorSystem::init`: seed the network from `init_network`, run every
actor's `start`, and emit the single initial snapshot labelled INIT. -/
def ActorSystem.init {Msg State : Type} [LinearOrder Msg]
    (sys : ActorSystem Msg State) :
    List (String × ActorSystemSnapshot Msg State) :=
  let net0 := sys.init_network.foldl (fun n e => Network.insert e n) []
  let r := initLoop 0 net0 sys.actors
  [("INIT", { actor_states := r.1, network := r.2 })]

/-- The delivery branch of `ActorSystem::next` ("option 2", actor.rs lines
280-292): run `advance` on a fresh result holding the destination's state,
replace that actor's state, and insert every sent envelope (sourced at the
destination id).  The Rust code indexes `actor_states[id]` and `actors[id]`,
which panics when `dst` is out of range; the panic is `none`. -/
def deliverResult {Msg State : Type} [LinearOrder Msg]
    (sys : ActorSystem Msg State) (s : ActorSystemSnapshot Msg State)
    (env : Envelope Msg) : Option (String × ActorSystemSnapshot Msg State) :=
  match sys.actors[env.dst]?, s.actor_states[env.dst]? with
  | some actor, some st =>
    let result := actor.advance env.src env.msg (ActorResult.new st)
    some (result.action,
      { actor_states := s.actor_states.set env.dst result.state,
        network := insertOutputs env.dst result.outputs s.network })
  | _, _ => none

/-- The loss branch of `ActorSystem::next` ("option 1", actor.rs lines
275-278): the envelope is removed, nothing else changes. -/
def messageLost {Msg State : Type} [LinearOrder Msg]
    (s : ActorSystemSnapshot Msg State) (env : Envelope Msg) :
    String × ActorSystemSnapshot Msg State :=
  ("message lost", { s with network := Network.remove env s.network })

/-- The loop of `ActorSystem::next` over the network: per envelope, push the
loss successor then the delivery successor. -/
def nextLoop {Msg State : Type} [LinearOrder Msg]
    (sys : ActorSystem Msg State) (s : ActorSystemSnapshot Msg State) :
    List (Envelope Msg) → Option (List (String × ActorSystemSnapshot Msg State))
  | [] => some []
  | env :: rest => do
    let d ← deliverResult sys s env
    let tail ← nextLoop sys s rest
    pure (messageLost s env :: d :: tail)

/-- `ActorSystem::next` (actor.rs lines 271-294). -/
def ActorSystem.next {Msg State : Type} [LinearOrder Msg]
    (sys : ActorSystem Msg State) (s : ActorSystemSnapshot Msg State) :
    Option (List (String × ActorSystemSnapshot Msg State)) :=
  nextLoop sys s s.network

/-- The snapshots produced by `init` or by any sequence of `next` steps. -/
inductive Reachable {Msg State : Type} [LinearOrder Msg]
    (sys : ActorSystem Msg State) : ActorSystemSnapshot Msg State → Prop where
  | init (st : String × ActorSystemSnapshot Msg State)
      (h : st ∈ sys.init) : Reachable sys st.2
  | next (s : ActorSystemSnapshot Msg State)
      (steps : List (String × ActorSystemSnapshot Msg State))
      (st : String × ActorSystemSnapshot Msg State)
      (hs : Reachable sys s) (hn : sys.next s = some steps)
      (hm : st ∈ steps) : Reachable sys st.2

theorem initLoop_length {Msg State : Type} [LinearOrder Msg] (src : ModelId)
    (net : Network Msg) (l : List (Actor Msg State)) :
    (initLoop src net l).1.length = l.length := by
  induction l generalizing src net with
  | nil => simp [initLoop]
  | cons a rest ih => simp [initLoop, ih]

theorem nextLoop_spec {Msg State : Type} [LinearOrder Msg]
    (sys : ActorSystem Msg State) (s : ActorSystemSnapshot Msg State)
    (l : List (Envelope Msg))
    (steps : List (String × ActorSystemSnapshot Msg State))
    (h : nextLoop sys s l = some steps) :
    steps.length = 2 * l.length ∧
      ∀ i, i < l.length →
        ∃ env, l[i]? = some env ∧
          steps[2 * i]? = some (messageLost s env) ∧
          ∃ d, deliverResult sys s env = some d ∧ steps[2 * i + 1]? = some d := by
  induction l generalizing steps with
  | nil =>
    simp only [nextLoop] at h
    cases h
    simp
  | cons env rest ih =>
    simp only [nextLoop] at h
    cases hd : deliverResult sys s env with
    | none => rw [hd] at h; simp at h
    | some d =>
      rw [hd] at h
      cases ht : nextLoop sys s rest with
      | none => rw [ht] at h; simp at h
      | some tail =>
        rw [ht] at h
        simp only [Option.bind_some, Option.some_bind, pure] at h
        cases h
        obtain ⟨hlen, hidx⟩ := ih tail ht
        constructor
        · simp [hlen]; ring
        · intro i hi
          cases i with
          | zero => exact ⟨env, by simp, by simp, d, hd, by simp⟩
          | succ n =>
            obtain ⟨env', he', hm', d', hd', hs'⟩ := hidx n (by
              simpa using Nat.lt_of_succ_lt_succ hi)
            refine ⟨env', by simpa using he', ?_, d', hd', ?_⟩
            · have h2 : 2 * (n + 1) = (2 * n + 1) + 1 := by ring
              rw [h2]
              simpa using hm'
            · have h2 : 2 * (n + 1) + 1 = (2 * n + 1 + 1) + 1 := by ring
              rw [h2]
              simpa using hs'

theorem nextLoop_mem_states_length {Msg State : Type} [LinearOrder Msg]
    (sys : ActorSystem Msg State) (s : ActorSystemSnapshot Msg State)
    (l : List (Envelope Msg))
    (steps : List (String × ActorSystemSnapshot Msg State))
    (st : String × ActorSystemSnapshot Msg State)
    (h : nextLoop sys s l = some steps) (hm : st ∈ steps) :
    st.2.actor_states.length = s.actor_states.length := by
  induction l generalizing steps with
  | nil =>
    simp only [nextLoop] at h
    cases h
    simp at hm
  | cons env rest ih =>
    simp only [nextLoop] at h
    cases hd : deliverResult sys s env with
    | none => rw [hd] at h; simp at h
    | some d =>
      rw [hd] at h
      cases ht : nextLoop sys s rest with
      | none => rw [ht] at h; simp at h
      | some tail =>
        rw [ht] at h
        simp only [Option.bind_some, Option.some_bind, pure] at h
        cases h
        rcases List.mem_cons.mp hm with hlost | hm2
        · subst hlost; rfl
        rcases List.mem_cons.mp hm2 with hdel | htail
        · subst hdel
          simp only [deliverResult] at hd
          cases h1 : sys.actors[env.dst]? with
          | none => rw [h1] at hd; simp at hd
          | some actor =>
            cases h2 : s.actor_states[env.dst]? with
            | none => rw [h1, h2] at hd; simp at hd
            | some stt =>
              rw [h1, h2] at hd
              cases hd
              simp
        · exact ih tail ht htail

/-- Claim C8: for every snapshot reachable in the lifted actor-system state
machine (produced by `init` or by any sequence of `next` steps), the length
of the `actor_states` vector equals the number of configured actors. -/
theorem c8_reachable_actor_states_length {Msg State : Type} [LinearOrder Msg]
    (sys : ActorSystem Msg State) (s : ActorSystemSnapshot Msg State)
    (h : Reachable sys s) : s.actor_states.length = sys.actors.length := by
  induction h with
  | init st hst =>
    simp only [ActorSystem.init, List.mem_singleton] at hst
    rw [hst]
    exact initLoop_length 0 _ sys.actors
  | next s steps st hs hn hm ih =>
    rw [nextLoop_mem_states_length sys s s.network steps st hn hm]
    exact ih

/-- A concrete one-actor system used to witness the reachability claims. -/
def sysW : ActorSystem Nat Nat where
  init_network := [⟨1, 0, 5⟩]
  actors := [{ start := ActorResult.new 0,
               advance := fun _ m r => { r with state := m } }]

/-- The initial snapshot of `sysW`. -/
def snapW : ActorSystemSnapshot Nat Nat where
  actor_states := [0]
  network := [⟨1, 0, 5⟩]

theorem c8_reachable_actor_states_length_witness :
    Reachable sysW snapW ∧ snapW.actor_states.length = sysW.actors.length := by
  have hmem : ("INIT", snapW) ∈ sysW.init := by
    simp [ActorSystem.init, sysW, snapW, initLoop, insertOutputs,
      Network.insert, ActorResult.new]
  exact ⟨Reachable.init ("INIT", snapW) hmem,
    c8_reachable_actor_states_length sysW snapW
      (Reachable.init ("INIT", snapW) hmem)⟩

/-- Claim C10: `next` emits exactly two successors per envelope in the
network — the loss successor then the delivery successor — and nothing else;
in particular an empty network yields no successors, and there are no
timeout successors (every step is one of the two forms enumerated below). -/
theorem c10_next_two_successors_per_envelope {Msg State : Type}
    [LinearOrder Msg] (sys : ActorSystem Msg State)
    (s : ActorSystemSnapshot Msg State)
    (steps : List (String × ActorSystemSnapshot Msg State))
    (h : sys.next s = some steps) :
    steps.length = 2 * s.network.length ∧
      (s.network = [] → steps = []) ∧
      ∀ i, i < s.network.length →
        ∃ env, s.network[i]? = some env ∧
          steps[2 * i]? = some (messageLost s env) ∧
          ∃ d, deliverResult sys s env = some d ∧ steps[2 * i + 1]? = some d := by
  obtain ⟨hlen, hidx⟩ := nextLoop_spec sys s s.network steps h
  refine ⟨hlen, ?_, hidx⟩
  intro hempty
  have : steps.length = 0 := by rw [hlen, hempty]; simp
  exact List.length_eq_zero.mp this

theorem c10_next_two_successors_per_envelope_witness :
    ∃ steps, sysW.next snapW = some steps ∧ steps.length = 2 * snapW.network.length :=
  ⟨[messageLost snapW ⟨1, 0, 5⟩,
      ("actor step", { actor_states := [5], network := [⟨1, 0, 5⟩] })],
    rfl,
    (c10_next_two_successors_per_envelope sysW snapW _ rfl).1⟩

/-- Modelled from the spec: the `Command` enum of the later actor API
(`Send(dst, msg)`, `SetTimer(range)`, `CancelTimer`), whose defining module
is referenced by ordered_reliable_link.rs but absent from src/.  Timer
ranges (`Range<Duration>`) are modelled as pairs of naturals. -/
inductive Command (Msg : Type) where
  | Send (dst : ModelId) (m : Msg)
  | SetTimer (r : Nat × Nat)
  | CancelTimer
deriving DecidableEq, Repr

/-- Modelled from the spec: the `Out` effect buffer of the later actor API
(absent from src/) — an optional replacement state plus an ordered list of
commands. -/
structure Out (Msg State : Type) where
  state : Option State
  commands : List (Command Msg)
deriving DecidableEq, Repr

/-- Modelled from the spec: a fresh `Out` buffer records no mutation. -/
def Out.empty {Msg State : Type} : Out Msg State :=
  { state := none, commands := [] }

/-- Modelled from the spec: `Out::send` appends a `Send` command. -/
def Out.send {Msg State : Type} (o : Out Msg State) (dst : ModelId)
    (m : Msg) : Out Msg State :=
  { o with commands := o.commands ++ [Command.Send dst m] }

/-- Modelled from the spec: `Out::set_state` records the replacement
state. -/
def Out.set_state {Msg State : Type} (o : Out Msg State) (s : State) :
    Out Msg State :=
  { o with state := some s }

/-- Modelled from the spec: `Out::set_timer` appends a `SetTimer`
command. -/
def Out.set_timer {Msg State : Type} (o : Out Msg State) (r : Nat × Nat) :
    Out Msg State :=
  { o with commands := o.commands ++ [Command.SetTimer r] }

/-- Modelled from the spec: `Out::is_no_op` detects that the handler neither
replaced the state nor issued any command. -/
def Out.is_no_op {Msg State : Type} (o : Out Msg State) : Bool :=
  o.state.isNone && o.commands.isEmpty

/-- Modelled from the spec: the later actor API's handler trait — `on_start`,
`on_msg` and `on_timeout`, each producing an `Out` buffer (the `_out`
convenience variants used by the wrapper). -/
structure ActorIface (Msg State : Type) where
  on_start : ModelId → Out Msg State
  on_msg : ModelId → State → ModelId → Msg → Out Msg State
  on_timeout : ModelId → State → Out Msg State

/-- A `BTreeMap<Nat, α>` modelled as its sorted association list.
`BTMap.lookup` is `get`/`contains_key`. -/
def BTMap.lookup {α : Type} (k : Nat) : List (Nat × α) → Option α
  | [] => none
  | (k', v) :: rest => if k = k' then some v else BTMap.lookup k rest

/-- `BTreeMap::insert`: replaces the binding when the key is present,
otherwise inserts it at its ordered position. -/
def BTMap.insert {α : Type} (k : Nat) (v : α) : List (Nat × α) → List (Nat × α)
  | [] => [(k, v)]
  | (k', v') :: rest =>
    if k < k' then (k, v) :: (k', v') :: rest
    else if k = k' then (k, v) :: rest
    else (k', v') :: BTMap.insert k v rest

/-- `BTreeMap::remove`: drops the binding for the key. -/
def BTMap.erase {α : Type} (k : Nat) (m : List (Nat × α)) : List (Nat × α) :=
  m.filter (fun p => p.1 != k)

theorem BTMap.lookup_insert_self {α : Type} (k : Nat) (v : α)
    (m : List (Nat × α)) : BTMap.lookup k (BTMap.insert k v m) = some v := by
  induction m with
  | nil => simp [BTMap.insert, BTMap.lookup]
  | cons p rest ih =>
    obtain ⟨k', v'⟩ := p
    by_cases h1 : k < k'
    · simp [BTMap.insert, h1, BTMap.lookup]
    · by_cases h2 : k = k'
      · simp [BTMap.insert, h1, h2, BTMap.lookup]
      · simp [BTMap.insert, h1, h2, BTMap.lookup, ih]

theorem BTMap.lookup_insert_ne {α : Type} (k k' : Nat) (v : α)
    (m : List (Nat × α)) (hne : k ≠ k') :
    BTMap.lookup k (BTMap.insert k' v m) = BTMap.lookup k m := by
  induction m with
  | nil => simp [BTMap.insert, BTMap.lookup, hne]
  | cons p rest ih =>
    obtain ⟨k'', v''⟩ := p
    by_cases h1 : k' < k''
    · simp [BTMap.insert, h1, BTMap.lookup, hne]
    · by_cases h2 : k' = k''
      · subst h2
        simp [BTMap.insert, h1, BTMap.lookup, hne]
      · by_cases h3 : k = k''
        · simp [BTMap.insert, h1, h2, BTMap.lookup, h3]
        · simp [BTMap.insert, h1, h2, BTMap.lookup, h3, ih]

theorem BTMap.lookup_erase_self {α : Type} (k : Nat) (m : List (Nat × α)) :
    BTMap.lookup k (BTMap.erase k m) = none := by
  induction m with
  | nil => simp [BTMap.erase, BTMap.lookup]
  | cons p rest ih =>
    obtain ⟨k', v'⟩ := p
    by_cases h : k' = k
    · subst h
      simpa [BTMap.erase, BTMap.lookup] using ih
    · have hb : (k' != k) = true := by simpa using h
      have hne : k ≠ k' := fun hk => h hk.symm
      simp only [BTMap.erase, List.filter] at ih ⊢
      simp [hb, BTMap.lookup, hne, ih]

theorem BTMap.lookup_erase_ne {α : Type} (k k' : Nat) (m : List (Nat × α))
    (hne : k ≠ k') : BTMap.lookup k (BTMap.erase k' m) = BTMap.lookup k m := by
  induction m with
  | nil => simp [BTMap.erase, BTMap.lookup]
  | cons p rest ih =>
    obtain ⟨k'', v''⟩ := p
    by_cases h : k'' = k'
    · subst h
      have : k ≠ k'' := hne
      simp only [BTMap.erase, List.filter] at ih ⊢
      simp [BTMap.lookup, this, ih]
    · have hb : (k'' != k') = true := by simpa using h
      simp only [BTMap.erase, List.filter] at ih ⊢
      by_cases h3 : k = k''
      · simp [hb, BTMap.lookup, h3]
      · simp [hb, BTMap.lookup, h3, ih]

/-- Wire messages of the ordered reliable link (`enum MsgWrapper`):
`Deliver(seq, inner_msg)` and `Ack(seq)`.  `Sequencer` is `u64`, modelled as
`Nat`. -/
inductive MsgWrapper (Msg : Type) where
  | Deliver (seq : Nat) (m : Msg)
  | Ack (seq : Nat)
deriving DecidableEq, Repr

/-- The wrapper state for the ordered reliable link
(`struct StateWrapper`). -/
structure StateWrapper (Msg State : Type) where
  next_send_seq : Nat
  msgs_pending_ack : List (Nat × (ModelId × Msg))
  last_delivered_seqs : List (ModelId × Nat)
  wrapped_state : State
deriving Repr

/-- Wraps an actor with a "perfect link" (`struct ActorWrapper`). -/
structure ActorWrapper (Msg State : Type) where
  resend_interval : Nat × Nat
  wrapped_actor : ActorIface Msg State

/-- The output buffer type of the wrapper actor. -/
abbrev WOut (Msg State : Type) : Type :=
  Out (MsgWrapper Msg) (StateWrapper Msg State)

/-- The command loop of `process_output` (ordered_reliable_link.rs lines
105-119): `Send(dst, m)` transmits `Deliver(next_send_seq, m)`, records the
pending entry, and increments the sequencer; `SetTimer`/`CancelTimer` hit
`todo!` — a panic, modelled as `none`. -/
def processCommands {Msg State : Type} :
    List (Command Msg) → StateWrapper Msg State → WOut Msg State →
      Option (WOut Msg State)
  | [], state, o => some (o.set_state state)
  | Command.CancelTimer :: _, _, _ => none
  | Command.SetTimer _ :: _, _, _ => none
  | Command.Send dst m :: rest, state, o =>
    processCommands rest
      { state with
          msgs_pending_ack :=
            BTMap.insert state.next_send_seq (dst, m) state.msgs_pending_ack,
          next_send_seq := state.next_send_seq + 1 }
      (o.send dst (MsgWrapper.Deliver state.next_send_seq m))

/-- `process_output` (ordered_reliable_link.rs lines 99-121): apply the inner
state replacement if any, process the inner commands, and record the final
wrapper state. -/
def process_output {Msg State : Type} (wrapped_out : Out Msg State)
    (state : StateWrapper Msg State) (o : WOut Msg State) :
    Option (WOut Msg State) :=
  processCommands wrapped_out.commands
    { state with
        wrapped_state := wrapped_out.state.getD state.wrapped_state } o

/-- `last_delivered_seqs.get(&src).unwrap_or(&0)`. -/
def lastDeliveredOf {Msg State : Type} (state : StateWrapper Msg State)
    (src : ModelId) : Nat :=
  (BTMap.lookup src state.last_delivered_seqs).getD 0

/-- `ActorWrapper::on_msg` (ordered_reliable_link.rs lines 66-89).  The
handler starts from a fresh `Out` buffer; `none` is the `todo!` panic raised
by `process_output` on an inner timer command. -/
def ActorWrapper.on_msg {Msg State : Type} (w : ActorWrapper Msg State)
    (id : ModelId) (state : StateWrapper Msg State) (src : ModelId)
    (msg : MsgWrapper Msg) : Option (WOut Msg State) :=
  match msg with
  | MsgWrapper.Deliver seq m =>
    let o := Out.empty.send src (MsgWrapper.Ack seq)
    if seq ≤ lastDeliveredOf state src then some o
    else
      let wrapped_out := w.wrapped_actor.on_msg id state.wrapped_state src m
      if wrapped_out.is_no_op then some o
      else
        process_output wrapped_out
          { state with
              last_delivered_seqs :=
                BTMap.insert src seq state.last_delivered_seqs } o
  | MsgWrapper.Ack seq =>
    if (BTMap.lookup seq state.msgs_pending_ack).isSome then
      some (Out.empty.set_state
        { state with msgs_pending_ack := BTMap.erase seq state.msgs_pending_ack })
    else some Out.empty

/-- `ActorWrapper::on_timeout` (ordered_reliable_link.rs lines 91-96): reset
the timer, then resend every pending entry. -/
def ActorWrapper.on_timeout {Msg State : Type} (w : ActorWrapper Msg State)
    (_id : ModelId) (state : StateWrapper Msg State) : WOut Msg State :=
  state.msgs_pending_ack.foldl
    (fun o e => o.send e.2.1 (MsgWrapper.Deliver e.1 e.2.2))
    (Out.empty.set_timer w.resend_interval)

/-- The `Deliver` transmissions produced for a list of inner sends, with
consecutive sequencers starting at `seq0`. -/
def deliverCmds {Msg : Type} (seq0 : Nat) :
    List (ModelId × Msg) → List (Command (MsgWrapper Msg))
  | [] => []
  | (dst, m) :: rest =>
    Command.Send dst (MsgWrapper.Deliver seq0 m) :: deliverCmds (seq0 + 1) rest

theorem processCommands_sends_spec {Msg State : Type}
    (sends : List (ModelId × Msg)) (state : StateWrapper Msg State)
    (o : WOut Msg State) :
    ∃ o', processCommands (sends.map fun p => Command.Send p.1 p.2) state o
        = some o' ∧
      ∃ st', o'.state = some st' ∧
        st'.next_send_seq = state.next_send_seq + sends.length ∧
        st'.wrapped_state = state.wrapped_state ∧
        st'.last_delivered_seqs = state.last_delivered_seqs ∧
        o'.commands = o.commands ++ deliverCmds state.next_send_seq sends ∧
        (∀ i, (h : i < sends.length) →
          BTMap.lookup (state.next_send_seq + i) st'.msgs_pending_ack =
            some (sends.get ⟨i, h⟩)) ∧
        (∀ k, k < state.next_send_seq →
          BTMap.lookup k st'.msgs_pending_ack =
            BTMap.lookup k state.msgs_pending_ack) := by
  induction sends generalizing state o with
  | nil =>
    refine ⟨o.set_state state, rfl, state, rfl, by simp, rfl, rfl, ?_, ?_, ?_⟩
    · simp [Out.set_state, deliverCmds]
    · intro i h
      simp at h
    · intro k _
      rfl
  | cons p rest ih =>
    obtain ⟨dst, m⟩ := p
    obtain ⟨o', ho', st', hst', hseq, hws, hlast, hcmds, hpend, hpres⟩ :=
      ih { state with
            msgs_pending_ack :=
              BTMap.insert state.next_send_seq (dst, m) state.msgs_pending_ack,
            next_send_seq := state.next_send_seq + 1 }
        (o.send dst (MsgWrapper.Deliver state.next_send_seq m))
    refine ⟨o', ?_, st', hst', ?_, hws, hlast, ?_, ?_, ?_⟩
    · simpa [processCommands] using ho'
    · simp at hseq
      simp [hseq]
      ring
    · rw [hcmds]
      simp [Out.send, deliverCmds]
    · intro i h
      cases i with
      | zero =>
        have h0 : state.next_send_seq < state.next_send_seq + 1 :=
          Nat.lt_succ_self _
        have := hpres state.next_send_seq (by simp)
        simp only [Nat.add_zero]
        rw [this]
        simpa using BTMap.lookup_insert_self state.next_send_seq (dst, m)
          state.msgs_pending_ack
      | succ n =>
        have hn : n < rest.length := by simpa using Nat.lt_of_succ_lt_succ h
        have := hpend n hn
        simp only at this
        have harith : state.next_send_seq + (n + 1) =
            state.next_send_seq + 1 + n := by ring
        rw [harith, this]
        simp
    · intro k hk
      have hk1 : k < state.next_send_seq + 1 := Nat.lt_succ_of_lt hk
      have := hpres k (by simpa using hk1)
      rw [this]
      exact BTMap.lookup_insert_ne k state.next_send_seq (dst, m)
        state.msgs_pending_ack (Nat.ne_of_lt hk)

theorem processCommands_commands_mono {Msg State : Type}
    (cmds : List (Command Msg)) (state : StateWrapper Msg State)
    (o o' : WOut Msg State) (h : processCommands cmds state o = some o') :
    ∃ tail, o'.commands = o.commands ++ tail := by
  induction cmds generalizing state o with
  | nil =>
    simp only [processCommands] at h
    cases h
    exact ⟨[], by simp [Out.set_state]⟩
  | cons c rest ih =>
    cases c with
    | CancelTimer => simp [processCommands] at h
    | SetTimer r => simp [processCommands] at h
    | Send dst m =>
      simp only [processCommands] at h
      obtain ⟨tail, htail⟩ := ih _ _ h
      exact ⟨Command.Send dst (MsgWrapper.Deliver state.next_send_seq m) :: tail,
        by simp [htail, Out.send]⟩

theorem process_output_sends_spec {Msg State : Type}
    (wrapped_out : Out Msg State) (sends : List (ModelId × Msg))
    (state : StateWrapper Msg State) (o : WOut Msg State)
    (hc : wrapped_out.commands = sends.map fun p => Command.Send p.1 p.2) :
    ∃ o', process_output wrapped_out state o = some o' ∧
      ∃ st', o'.state = some st' ∧
        st'.next_send_seq = state.next_send_seq + sends.length ∧
        st'.wrapped_state = wrapped_out.state.getD state.wrapped_state ∧
        st'.last_delivered_seqs = state.last_delivered_seqs ∧
        o'.commands = o.commands ++ deliverCmds state.next_send_seq sends ∧
        (∀ i, (h : i < sends.length) →
          BTMap.lookup (state.next_send_seq + i) st'.msgs_pending_ack =
            some (sends.get ⟨i, h⟩)) ∧
        (∀ k, k < state.next_send_seq →
          BTMap.lookup k st'.msgs_pending_ack =
            BTMap.lookup k state.msgs_pending_ack) := by
  unfold process_output
  rw [hc]
  exact processCommands_sends_spec sends
    { state with wrapped_state := wrapped_out.state.getD state.wrapped_state } o

/-- Claim C5: on the send path, each inner `Send(dst, m)` is transmitted as
`Deliver(s, m)` to `dst` with `s` the current `next_send_seq`, the pending
entry `s ↦ (dst, m)` is recorded, and the sequencer is incremented once per
send; hence across the invocation `next_send_seq` grows by exactly the
number of sends — strictly monotonic in the number of sends performed and
never decreasing. -/
theorem c5_send_path_seq_monotonic {Msg State : Type}
    (wrapped_out : Out Msg State) (sends : List (ModelId × Msg))
    (state : StateWrapper Msg State) (o : WOut Msg State)
    (hc : wrapped_out.commands = sends.map fun p => Command.Send p.1 p.2) :
    ∃ o' st', process_output wrapped_out state o = some o' ∧
      o'.state = some st' ∧
      o'.commands = o.commands ++ deliverCmds state.next_send_seq sends ∧
      (∀ i, (h : i < sends.length) →
        BTMap.lookup (state.next_send_seq + i) st'.msgs_pending_ack =
          some (sends.get ⟨i, h⟩)) ∧
      st'.next_send_seq = state.next_send_seq + sends.length ∧
      state.next_send_seq ≤ st'.next_send_seq ∧
      (0 < sends.length → state.next_send_seq < st'.next_send_seq) := by
  obtain ⟨o', ho', st', hst', hseq, _, _, hcmds, hpend, _⟩ :=
    process_output_sends_spec wrapped_out sends state o hc
  refine ⟨o', st', ho', hst', hcmds, hpend, hseq, ?_, ?_⟩
  · rw [hseq]; exact Nat.le_add_right _ _
  · intro hpos
    rw [hseq]
    exact Nat.lt_add_of_pos_right hpos

/-- A concrete inner actor for witnessing the wrapper claims: ignores the
message 0 (a no-op) and otherwise accumulates it and echoes it to actor 0. -/
def innerW : ActorIface Nat Nat where
  on_start := fun _ => Out.empty.set_state 0
  on_msg := fun _ s _ m =>
    if m = 0 then Out.empty else (Out.empty.set_state (s + m)).send 0 m
  on_timeout := fun _ _ => Out.empty

/-- A concrete wrapper around `innerW`. -/
def wrapW : ActorWrapper Nat Nat where
  resend_interval := (1, 2)
  wrapped_actor := innerW

/-- A fresh wrapper state. -/
def stW : StateWrapper Nat Nat where
  next_send_seq := 1
  msgs_pending_ack := []
  last_delivered_seqs := []
  wrapped_state := 0

theorem c5_send_path_seq_monotonic_witness :
    ∃ o' st',
      process_output
          (⟨some 7, [Command.Send 1 42, Command.Send 1 43]⟩ : Out Nat Nat)
          stW Out.empty = some o' ∧
      o'.state = some st' ∧ st'.next_send_seq = stW.next_send_seq + 2 := by
  obtain ⟨o', st', h1, h2, _, _, h5, _, _⟩ :=
    c5_send_path_seq_monotonic
      (⟨some 7, [Command.Send 1 42, Command.Send 1 43]⟩ : Out Nat Nat)
      [(1, 42), (1, 43)] stW Out.empty rfl
  exact ⟨o', st', h1, h2, h5⟩

/-- Claim C3: receiving `Deliver(seq, m)` with `seq` fresh (greater than the
recorded last delivered sequencer for `src`, absent read as 0): when the
inner handler's output is a no-op the wrapper records no state change (in
particular `last_delivered_seqs` is not advanced) and only `Ack(seq)` is
sent back; otherwise `last_delivered_seqs[src]` is set to `seq` and the
inner output's state replacement and sends are applied. -/
theorem c3_fresh_deliver_no_op_rule {Msg State : Type}
    (w : ActorWrapper Msg State) (id : ModelId)
    (state : StateWrapper Msg State) (src : ModelId) (seq : Nat) (m : Msg)
    (hfresh : lastDeliveredOf state src < seq) :
    ((w.wrapped_actor.on_msg id state.wrapped_state src m).is_no_op = true →
      w.on_msg id state src (MsgWrapper.Deliver seq m) =
        some { state := none,
               commands := [Command.Send src (MsgWrapper.Ack seq)] }) ∧
    (∀ sends : List (ModelId × Msg),
      (w.wrapped_actor.on_msg id state.wrapped_state src m).commands =
        sends.map (fun p => Command.Send p.1 p.2) →
      (w.wrapped_actor.on_msg id state.wrapped_state src m).is_no_op = false →
      ∃ o' st', w.on_msg id state src (MsgWrapper.Deliver seq m) = some o' ∧
        o'.state = some st' ∧
        st'.last_delivered_seqs =
          BTMap.insert src seq state.last_delivered_seqs ∧
        st'.wrapped_state =
          (w.wrapped_actor.on_msg id state.wrapped_state src m).state.getD
            state.wrapped_state ∧
        st'.next_send_seq = state.next_send_seq + sends.length ∧
        o'.commands = Command.Send src (MsgWrapper.Ack seq) ::
          deliverCmds state.next_send_seq sends) := by
  have hle : ¬ seq ≤ lastDeliveredOf state src := Nat.not_le.mpr hfresh
  constructor
  · intro hno
    simp [ActorWrapper.on_msg, hle, hno, Out.empty, Out.send]
  · intro sends hc hno
    obtain ⟨o', ho', st', hst', hseq, hws, hlast, hcmds, _, _⟩ :=
      process_output_sends_spec
        (w.wrapped_actor.on_msg id state.wrapped_state src m) sends
        { state with
            last_delivered_seqs := BTMap.insert src seq state.last_delivered_seqs }
        (Out.empty.send src (MsgWrapper.Ack seq)) hc
    refine ⟨o', st', ?_, hst', ?_, hws, ?_, ?_⟩
    · simpa [ActorWrapper.on_msg, hle, hno] using ho'
    · simpa using hlast
    · simpa using hseq
    · rw [hcmds]
      simp [Out.empty, Out.send]

theorem c3_fresh_deliver_no_op_rule_witness :
    lastDeliveredOf stW 9 < 1 ∧
      wrapW.on_msg 7 stW 9 (MsgWrapper.Deliver 1 0) =
        some { state := none, commands := [Command.Send 9 (MsgWrapper.Ack 1)] } :=
  ⟨by decide,
    (c3_fresh_deliver_no_op_rule wrapW 7 stW 9 1 0 (by decide)).1 (by decide)⟩

/-- Claim C4: on `Deliver(seq, m)` the wrapper always sends `Ack(seq)` back
to `src` (it is the first command of every non-panicking output), and when
`seq` is not fresh (`seq ≤ last_delivered_seqs[src]`, absent read as 0) the
result is exactly the `Ack` with no state change — indeed a constant
independent of the wrapped inner actor, which is therefore not invoked. -/
theorem c4_stale_deliver_acks_only {Msg State : Type}
    (w : ActorWrapper Msg State) (id : ModelId)
    (state : StateWrapper Msg State) (src : ModelId) (seq : Nat) (m : Msg) :
    (seq ≤ lastDeliveredOf state src →
      w.on_msg id state src (MsgWrapper.Deliver seq m) =
        some { state := none,
               commands := [Command.Send src (MsgWrapper.Ack seq)] }) ∧
    (∀ o', w.on_msg id state src (MsgWrapper.Deliver seq m) = some o' →
      ∃ rest, o'.commands = Command.Send src (MsgWrapper.Ack seq) :: rest) := by
  constructor
  · intro hle
    simp [ActorWrapper.on_msg, hle, Out.empty, Out.send]
  · intro o' h
    by_cases hle : seq ≤ lastDeliveredOf state src
    · simp [ActorWrapper.on_msg, hle, Out.empty, Out.send] at h
      exact ⟨[], by simp [← h]⟩
    · by_cases hno :
        (w.wrapped_actor.on_msg id state.wrapped_state src m).is_no_op
      · simp [ActorWrapper.on_msg, hle, hno, Out.empty, Out.send] at h
        exact ⟨[], by simp [← h]⟩
      · simp only [ActorWrapper.on_msg, if_neg hle, Bool.not_eq_true] at h
        rw [if_neg (by simpa using hno)] at h
        unfold process_output at h
        obtain ⟨tail, htail⟩ := processCommands_commands_mono _ _ _ _ h
        exact ⟨tail, by simpa [Out.empty, Out.send] using htail⟩

/-- A wrapper state that has already delivered sequencer 5 from actor 9. -/
def stW4 : StateWrapper Nat Nat where
  next_send_seq := 1
  msgs_pending_ack := []
  last_delivered_seqs := [(9, 5)]
  wrapped_state := 0

theorem c4_stale_deliver_acks_only_witness :
    3 ≤ lastDeliveredOf stW4 9 ∧
      wrapW.on_msg 7 stW4 9 (MsgWrapper.Deliver 3 1) =
        some { state := none, commands := [Command.Send 9 (MsgWrapper.Ack 3)] } :=
  ⟨by decide,
    (c4_stale_deliver_acks_only wrapW 7 stW4 9 3 1).1 (by decide)⟩

/-- Claim C6: on `Ack(seq)`, when `seq` is absent from `msgs_pending_ack`
the wrapper output is empty (no state replacement, no sends); otherwise the
new state differs from the old only by the removal of exactly that pending
entry — `next_send_seq`, `last_delivered_seqs` and `wrapped_state` are
untouched — and still nothing is sent. -/
theorem c6_ack_removes_pending_only {Msg State : Type}
    (w : ActorWrapper Msg State) (id : ModelId)
    (state : StateWrapper Msg State) (src : ModelId) (seq : Nat) :
    (BTMap.lookup seq state.msgs_pending_ack = none →
      w.on_msg id state src (MsgWrapper.Ack seq) =
        some { state := none, commands := [] }) ∧
    (∀ v, BTMap.lookup seq state.msgs_pending_ack = some v →
      ∃ st', w.on_msg id state src (MsgWrapper.Ack seq) =
          some { state := some st', commands := [] } ∧
        st'.next_send_seq = state.next_send_seq ∧
        st'.last_delivered_seqs = state.last_delivered_seqs ∧
        st'.wrapped_state = state.wrapped_state ∧
        BTMap.lookup seq st'.msgs_pending_ack = none ∧
        ∀ k, k ≠ seq → BTMap.lookup k st'.msgs_pending_ack =
          BTMap.lookup k state.msgs_pending_ack) := by
  constructor
  · intro hnone
    simp [ActorWrapper.on_msg, hnone, Out.empty]
  · intro v hsome
    refine ⟨{ state with msgs_pending_ack := BTMap.erase seq state.msgs_pending_ack },
      ?_, rfl, rfl, rfl, ?_, ?_⟩
    · simp [ActorWrapper.on_msg, hsome, Out.empty, Out.set_state]
    · exact BTMap.lookup_erase_self seq state.msgs_pending_ack
    · intro k hk
      exact BTMap.lookup_erase_ne k seq state.msgs_pending_ack hk

/-- A wrapper state with one pending unacknowledged send. -/
def stW6 : StateWrapper Nat Nat where
  next_send_seq := 3
  msgs_pending_ack := [(2, (3, 42))]
  last_delivered_seqs := []
  wrapped_state := 0

theorem c6_ack_removes_pending_only_witness :
    ∃ st', wrapW.on_msg 7 stW6 9 (MsgWrapper.Ack 2) =
        some { state := some st', commands := [] } ∧
      BTMap.lookup 2 st'.msgs_pending_ack = none ∧
      st'.next_send_seq = stW6.next_send_seq := by
  obtain ⟨st', heq, h1, _, _, h4, _⟩ :=
    (c6_ack_removes_pending_only wrapW 7 stW6 9 2).2 (3, 42) (by decide)
  exact ⟨st', heq, h4, h1⟩

theorem foldl_send_spec {Msg State : Type}
    (l : List (Nat × (ModelId × Msg))) (o : WOut Msg State) :
    (l.foldl (fun o e => o.send e.2.1 (MsgWrapper.Deliver e.1 e.2.2)) o).commands
        = o.commands ++
          l.map (fun e => Command.Send e.2.1 (MsgWrapper.Deliver e.1 e.2.2)) ∧
      (l.foldl (fun o e => o.send e.2.1 (MsgWrapper.Deliver e.1 e.2.2)) o).state
        = o.state := by
  induction l generalizing o with
  | nil => simp
  | cons e rest ih =>
    obtain ⟨ih1, ih2⟩ := ih (o.send e.2.1 (MsgWrapper.Deliver e.1 e.2.2))
    constructor
    · simpa [Out.send] using ih1
    · simpa [Out.send] using ih2

/-- Claim C7: on every timeout firing the wrapper resets its timer and
resends every pending entry `(seq, (dst, msg))` as `Deliver(seq, msg)` to
its recorded destination `dst`; the wrapper state itself is not modified
(no replacement state is recorded). -/
theorem c7_timeout_resends_pending {Msg State : Type}
    (w : ActorWrapper Msg State) (id : ModelId)
    (state : StateWrapper Msg State) :
    (w.on_timeout id state).state = none ∧
      (w.on_timeout id state).commands =
        Command.SetTimer w.resend_interval ::
          state.msgs_pending_ack.map
            (fun e => Command.Send e.2.1 (MsgWrapper.Deliver e.1 e.2.2)) := by
  obtain ⟨h1, h2⟩ := foldl_send_spec state.msgs_pending_ack
    (Out.empty.set_timer w.resend_interval)
  unfold ActorWrapper.on_timeout
  exact ⟨by simpa [Out.empty, Out.set_timer] using h2,
    by simpa [Out.empty, Out.set_timer] using h1⟩

/-- Modelled from the spec: the `LossyNetwork` flag of the `actor::system`
module, which is referenced by the ordered_reliable_link.rs tests but absent
from src/. -/
inductive LossyNetwork where
  | Yes
  | No
deriving DecidableEq, Repr

/-- Modelled from the spec: the `DuplicatingNetwork` flag of the
`actor::system` module (absent from src/). -/
inductive DuplicatingNetwork where
  | Yes
  | No
deriving DecidableEq, Repr

/-- Modelled from the spec: the `System` configuration of the `actor::system`
module (absent from src/) — an ordered actor list, pre-seeded envelopes, and
the loss and duplication flags. -/
structure System (Msg State : Type) where
  actors : List (ActorIface Msg State)
  init_network : List (Envelope Msg)
  lossy_network : LossyNetwork
  duplicating_network : DuplicatingNetwork

/-- Modelled from the spec: the snapshot of the lifted configurable system —
actor states, network and the set of actors with an active timer. -/
structure SystemState (Msg State : Type) where
  actor_states : List State
  network : Network Msg
  pending_timers : List ModelId
deriving DecidableEq, Repr

/-- Modelled from the spec: folding one `Out` command of the actor `id` into
the network and pending-timer set. -/
def applyCommand {Msg : Type} [LinearOrder Msg] (id : ModelId)
    (acc : Network Msg × List ModelId) (c : Command Msg) :
    Network Msg × List ModelId :=
  match c with
  | Command.Send dst m => (Network.insert ⟨id, dst, m⟩ acc.1, acc.2)
  | Command.SetTimer _ => (acc.1, if id ∈ acc.2 then acc.2 else acc.2 ++ [id])
  | Command.CancelTimer => (acc.1, acc.2.filter (fun x => x != id))

/-- Modelled from the spec: the delivery branch of the configurable lifting —
call `on_msg(dst, actor_states[dst], src, msg)`, replace `actor_states[dst]`
if the handler set a state, append the sent envelopes, and remove `e` iff
`duplicating_network == No`. -/
def deliverStep {Msg State : Type} [LinearOrder Msg] (sys : System Msg State)
    (s : SystemState Msg State) (e : Envelope Msg) :
    Option (String × SystemState Msg State) :=
  match sys.actors[e.dst]?, s.actor_states[e.dst]? with
  | some a, some st =>
    let out := a.on_msg e.dst st e.src e.msg
    let base :=
      if sys.duplicating_network = DuplicatingNetwork.No
      then Network.remove e s.network else s.network
    let r := out.commands.foldl (applyCommand e.dst) (base, s.pending_timers)
    some ("deliver",
      { actor_states := s.actor_states.set e.dst (out.state.getD st),
        network := r.1,
        pending_timers := r.2 })
  | _, _ => none

/-- Modelled from the spec: the drop branch of the configurable lifting —
the envelope is removed, no actor state changes. -/
def dropStep {Msg State : Type} [LinearOrder Msg]
    (s : SystemState Msg State) (e : Envelope Msg) :
    String × SystemState Msg State :=
  ("drop", { s with network := Network.remove e s.network })

/-- Modelled from the spec: the timeout branch of the configurable lifting —
call `on_timeout` for an actor with an active timer and apply its output
analogously. -/
def timeoutStep {Msg State : Type} [LinearOrder Msg] (sys : System Msg State)
    (s : SystemState Msg State) (id : ModelId) :
    Option (String × SystemState Msg State) :=
  match sys.actors[id]?, s.actor_states[id]? with
  | some a, some st =>
    let out := a.on_timeout id st
    let r := out.commands.foldl (applyCommand id)
      (s.network, s.pending_timers.filter (fun x => x != id))
    some ("timeout",
      { actor_states := s.actor_states.set id (out.state.getD st),
        network := r.1,
        pending_timers := r.2 })
  | _, _ => none

/-- Modelled from the spec: per envelope in set order, the deliver branch and
then — only if `lossy_network == Yes` — the drop branch. -/
def nextEnvelopes {Msg State : Type} [LinearOrder Msg] (sys : System Msg State)
    (s : SystemState Msg State) :
    List (Envelope Msg) → Option (List (String × SystemState Msg State))
  | [] => some []
  | e :: rest => do
    let d ← deliverStep sys s e
    let tail ← nextEnvelopes sys s rest
    pure (d :: ((if sys.lossy_network = LossyNetwork.Yes
                 then [dropStep s e] else []) ++ tail))

/-- Modelled from the spec: timeout successors for every actor with an
active timer, by actor id order of the pending set. -/
def nextTimeouts {Msg State : Type} [LinearOrder Msg] (sys : System Msg State)
    (s : SystemState Msg State) :
    List ModelId → Option (List (String × SystemState Msg State))
  | [] => some []
  | id :: rest => do
    let t ← timeoutStep sys s id
    let tail ← nextTimeouts sys s rest
    pure (t :: tail)

/-- Modelled from the spec: `next` of the configurable lifting — envelope
branches in set order, then the timeout branches. -/
def System.next {Msg State : Type} [LinearOrder Msg] (sys : System Msg State)
    (s : SystemState Msg State) :
    Option (List (String × SystemState Msg State)) := do
  let a ← nextEnvelopes sys s s.network
  let b ← nextTimeouts sys s s.pending_timers
  pure (a ++ b)

theorem deliverStep_label {Msg State : Type} [LinearOrder Msg]
    (sys : System Msg State) (s : SystemState Msg State) (e : Envelope Msg)
    (p : String × SystemState Msg State) (h : deliverStep sys s e = some p) :
    p.1 = "deliver" := by
  unfold deliverStep at h
  cases h1 : sys.actors[e.dst]? with
  | none => rw [h1] at h; simp at h
  | some a =>
    cases h2 : s.actor_states[e.dst]? with
    | none => rw [h1, h2] at h; simp at h
    | some st =>
      rw [h1, h2] at h
      cases h
      rfl

theorem timeoutStep_label {Msg State : Type} [LinearOrder Msg]
    (sys : System Msg State) (s : SystemState Msg State) (id : ModelId)
    (p : String × SystemState Msg State) (h : timeoutStep sys s id = some p) :
    p.1 = "timeout" := by
  unfold timeoutStep at h
  cases h1 : sys.actors[id]? with
  | none => rw [h1] at h; simp at h
  | some a =>
    cases h2 : s.actor_states[id]? with
    | none => rw [h1, h2] at h; simp at h
    | some st =>
      rw [h1, h2] at h
      cases h
      rfl

theorem nextEnvelopes_mem {Msg State : Type} [LinearOrder Msg]
    (sys : System Msg State) (s : SystemState Msg State)
    (l : List (Envelope Msg)) (steps : List (String × SystemState Msg State))
    (p : String × SystemState Msg State)
    (h : nextEnvelopes sys s l = some steps) (hp : p ∈ steps) :
    (∃ e ∈ l, deliverStep sys s e = some p) ∨
      (sys.lossy_network = LossyNetwork.Yes ∧ ∃ e ∈ l, p = dropStep s e) := by
  induction l generalizing steps with
  | nil =>
    simp only [nextEnvelopes] at h
    cases h
    simp at hp
  | cons e rest ih =>
    simp only [nextEnvelopes] at h
    cases hd : deliverStep sys s e with
    | none => rw [hd] at h; simp at h
    | some d =>
      rw [hd] at h
      cases ht : nextEnvelopes sys s rest with
      | none => rw [ht] at h; simp at h
      | some tail =>
        rw [ht] at h
        simp only [Option.bind_some, Option.some_bind, pure] at h
        cases h
        rcases List.mem_cons.mp hp with hph | hpt
        · exact Or.inl ⟨e, List.mem_cons_self e rest, hph ▸ hd⟩
        rcases List.mem_append.mp hpt with hpd | hptail
        · by_cases hl : sys.lossy_network = LossyNetwork.Yes
          · rw [if_pos hl] at hpd
            simp only [List.mem_singleton] at hpd
            exact Or.inr ⟨hl, e, List.mem_cons_self e rest, hpd⟩
          · rw [if_neg hl] at hpd
            simp at hpd
        · rcases ih tail ht hptail with ⟨e', he', hd'⟩ | ⟨hl, e', he', hp'⟩
          · exact Or.inl ⟨e', List.mem_cons_of_mem e he', hd'⟩
          · exact Or.inr ⟨hl, e', List.mem_cons_of_mem e he', hp'⟩

theorem nextTimeouts_mem {Msg State : Type} [LinearOrder Msg]
    (sys : System Msg State) (s : SystemState Msg State)
    (l : List ModelId) (steps : List (String × SystemState Msg State))
    (p : String × SystemState Msg State)
    (h : nextTimeouts sys s l = some steps) (hp : p ∈ steps) :
    ∃ id ∈ l, timeoutStep sys s id = some p := by
  induction l generalizing steps with
  | nil =>
    simp only [nextTimeouts] at h
    cases h
    simp at hp
  | cons id rest ih =>
    simp only [nextTimeouts] at h
    cases hd : timeoutStep sys s id with
    | none => rw [hd] at h; simp at h
    | some t =>
      rw [hd] at h
      cases ht : nextTimeouts sys s rest with
      | none => rw [ht] at h; simp at h
      | some tail =>
        rw [ht] at h
        simp only [Option.bind_some, Option.some_bind, pure] at h
        cases h
        rcases List.mem_cons.mp hp with hph | hptail
        · exact ⟨id, List.mem_cons_self id rest, hph ▸ hd⟩
        · obtain ⟨id', hid', h'⟩ := ih tail ht hptail
          exact ⟨id', List.mem_cons_of_mem id hid', h'⟩

theorem System.next_mem {Msg State : Type} [LinearOrder Msg]
    (sys : System Msg State) (s : SystemState Msg State)
    (steps : List (String × SystemState Msg State))
    (p : String × SystemState Msg State)
    (h : System.next sys s = some steps) (hp : p ∈ steps) :
    (∃ e ∈ s.network, deliverStep sys s e = some p) ∨
      (sys.lossy_network = LossyNetwork.Yes ∧ ∃ e ∈ s.network, p = dropStep s e) ∨
      (∃ id ∈ s.pending_timers, timeoutStep sys s id = some p) := by
  simp only [System.next] at h
  cases ha : nextEnvelopes sys s s.network with
  | none => rw [ha] at h; simp at h
  | some a =>
    rw [ha] at h
    cases hb : nextTimeouts sys s s.pending_timers with
    | none => rw [hb] at h; simp at h
    | some b =>
      rw [hb] at h
      simp only [Option.bind_some, Option.some_bind, pure] at h
      cases h
      rcases List.mem_append.mp hp with hpa | hpb
      · rcases nextEnvelopes_mem sys s s.network a p ha hpa with hdel | hdrop
        · exact Or.inl hdel
        · exact Or.inr (Or.inl hdrop)
      · exact Or.inr (Or.inr (nextTimeouts_mem sys s s.pending_timers b p hb hpb))

/-- Claim C1: in the configurable lifting, a drop successor is produced for
an envelope only if `lossy_network == Yes` (and it removes that envelope,
changing no actor state); when the system is not lossy, no step of `next`
carries the drop label. -/
theorem c1_drop_only_if_lossy {Msg State : Type} [LinearOrder Msg]
    (sys : System Msg State) (s : SystemState Msg State)
    (steps : List (String × SystemState Msg State))
    (h : System.next sys s = some steps) :
    (sys.lossy_network = LossyNetwork.No → ∀ p ∈ steps, p.1 ≠ "drop") ∧
    (∀ p ∈ steps, p.1 = "drop" →
      sys.lossy_network = LossyNetwork.Yes ∧
      ∃ e ∈ s.network,
        p.2 = { s with network := Network.remove e s.network } ∧
        p.2.actor_states = s.actor_states) := by
  have key : ∀ p ∈ steps, p.1 = "drop" →
      sys.lossy_network = LossyNetwork.Yes ∧
      ∃ e ∈ s.network,
        p.2 = { s with network := Network.remove e s.network } ∧
        p.2.actor_states = s.actor_states := by
    intro p hp hlabel
    rcases System.next_mem sys s steps p h hp with hdel | hdrop | htime
    · obtain ⟨e, _, hd⟩ := hdel
      rw [deliverStep_label sys s e p hd] at hlabel
      simp at hlabel
    · obtain ⟨hl, e, he, hpe⟩ := hdrop
      subst hpe
      exact ⟨hl, e, he, rfl, rfl⟩
    · obtain ⟨id, _, hT⟩ := htime
      rw [timeoutStep_label sys s id p hT] at hlabel
      simp at hlabel
  refine ⟨?_, key⟩
  intro hno p hp hlabel
  obtain ⟨hyes, _⟩ := key p hp hlabel
  rw [hno] at hyes
  simp at hyes

theorem nextEnvelopes_deliver_mem {Msg State : Type} [LinearOrder Msg]
    (sys : System Msg State) (s : SystemState Msg State)
    (l : List (Envelope Msg)) (steps : List (String × SystemState Msg State))
    (e : Envelope Msg)
    (h : nextEnvelopes sys s l = some steps) (he : e ∈ l) :
    ∃ d, deliverStep sys s e = some d ∧ d ∈ steps := by
  induction l generalizing steps with
  | nil => simp at he
  | cons e' rest ih =>
    simp only [nextEnvelopes] at h
    cases hd : deliverStep sys s e' with
    | none => rw [hd] at h; simp at h
    | some d =>
      rw [hd] at h
      cases ht : nextEnvelopes sys s rest with
      | none => rw [ht] at h; simp at h
      | some tail =>
        rw [ht] at h
        simp only [Option.bind_some, Option.some_bind, pure] at h
        cases h
        rcases List.mem_cons.mp he with heq | hrest
        · exact ⟨d, heq ▸ hd, List.mem_cons_self _ _⟩
        · obtain ⟨d', hd', hmem'⟩ := ih tail ht hrest
          exact ⟨d', hd',
            List.mem_cons_of_mem _ (List.mem_append_right _ hmem')⟩

/-- Claim C2: for each envelope `e = (src, dst, msg)` in the network, the
configurable lifting's delivery successor invokes
`on_msg(dst, actor_states[dst], src, msg)`, replaces `actor_states[dst]`
with the handler's resulting state (if one was set), appends every envelope
the handler sends, and removes `e` from the network iff
`duplicating_network == No`. -/
theorem c2_deliver_removes_iff_nondup {Msg State : Type} [LinearOrder Msg]
    (sys : System Msg State) (s : SystemState Msg State)
    (steps : List (String × SystemState Msg State)) (e : Envelope Msg)
    (h : System.next sys s = some steps) (he : e ∈ s.network) :
    ∃ a st, sys.actors[e.dst]? = some a ∧ s.actor_states[e.dst]? = some st ∧
      ∃ d, deliverStep sys s e = some d ∧ d ∈ steps ∧ d.1 = "deliver" ∧
        d.2.actor_states = s.actor_states.set e.dst
          ((a.on_msg e.dst st e.src e.msg).state.getD st) ∧
        (sys.duplicating_network = DuplicatingNetwork.No →
          d.2.network = ((a.on_msg e.dst st e.src e.msg).commands.foldl
            (applyCommand e.dst)
            (Network.remove e s.network, s.pending_timers)).1) ∧
        (sys.duplicating_network = DuplicatingNetwork.Yes →
          d.2.network = ((a.on_msg e.dst st e.src e.msg).commands.foldl
            (applyCommand e.dst) (s.network, s.pending_timers)).1) := by
  simp only [System.next] at h
  cases ha : nextEnvelopes sys s s.network with
  | none => rw [ha] at h; simp at h
  | some aSteps =>
    rw [ha] at h
    cases hb : nextTimeouts sys s s.pending_timers with
    | none => rw [hb] at h; simp at h
    | some bSteps =>
      rw [hb] at h
      simp only [Option.bind_some, Option.some_bind, pure] at h
      obtain ⟨d, hd, hmem⟩ :=
        nextEnvelopes_deliver_mem sys s s.network aSteps e ha he
      have hmem' : d ∈ steps := by
        cases h
        exact List.mem_append_left _ hmem
      cases h1 : sys.actors[e.dst]? with
      | none => unfold deliverStep at hd; rw [h1] at hd; simp at hd
      | some a =>
        cases h2 : s.actor_states[e.dst]? with
        | none => unfold deliverStep at hd; rw [h1, h2] at hd; simp at hd
        | some st =>
          have hd2 : deliverStep sys s e = some ("deliver",
              { actor_states := s.actor_states.set e.dst
                  ((a.on_msg e.dst st e.src e.msg).state.getD st),
                network := ((a.on_msg e.dst st e.src e.msg).commands.foldl
                  (applyCommand e.dst)
                  ((if sys.duplicating_network = DuplicatingNetwork.No
                    then Network.remove e s.network else s.network),
                   s.pending_timers)).1,
                pending_timers :=
                  ((a.on_msg e.dst st e.src e.msg).commands.foldl
                  (applyCommand e.dst)
                  ((if sys.duplicating_network = DuplicatingNetwork.No
                    then Network.remove e s.network else s.network),
                   s.pending_timers)).2 }) := by
            unfold deliverStep
            rw [h1, h2]
          have hdd := Option.some.inj (hd.symm.trans hd2)
          subst hdd
          refine ⟨a, st, rfl, rfl, _, hd2, hmem', rfl, rfl, ?_, ?_⟩
          · intro hdup
            simp [hdup]
          · intro hdup
            simp [hdup]

/-- A concrete inner actor for the configurable-lifting witnesses: it adds
each received message to its counter state. -/
def ifaceC : ActorIface Nat Nat where
  on_start := fun _ => Out.empty.set_state 0
  on_msg := fun _ s _ m => Out.empty.set_state (s + m)
  on_timeout := fun _ _ => Out.empty

/-- A concrete lossy duplicating one-actor system. -/
def sysC : System Nat Nat where
  actors := [ifaceC]
  init_network := []
  lossy_network := LossyNetwork.Yes
  duplicating_network := DuplicatingNetwork.Yes

/-- A concrete snapshot of `sysC` with a single self-addressed envelope. -/
def sC : SystemState Nat Nat where
  actor_states := [0]
  network := [⟨0, 0, 3⟩]
  pending_timers := []

/-- The envelope pending in `sC`. -/
def envC : Envelope Nat := ⟨0, 0, 3⟩

/-- The successors of `sC` under `sysC`. -/
def stepsC : List (String × SystemState Nat Nat) :=
  [("deliver", { actor_states := [3], network := [envC], pending_timers := [] }),
   dropStep sC envC]

theorem c1_drop_only_if_lossy_witness :
    sysC.lossy_network = LossyNetwork.Yes ∧
      ∃ e ∈ sC.network,
        (dropStep sC envC).2 = { sC with network := Network.remove e sC.network } ∧
        (dropStep sC envC).2.actor_states = sC.actor_states :=
  (c1_drop_only_if_lossy sysC sC stepsC (by decide)).2
    (dropStep sC envC) (by simp [stepsC]) rfl

theorem c2_deliver_removes_iff_nondup_witness :
    ∃ a st, sysC.actors[envC.dst]? = some a ∧
      sC.actor_states[envC.dst]? = some st ∧
      ∃ d, deliverStep sysC sC envC = some d ∧ d ∈ stepsC ∧ d.1 = "deliver" ∧
        d.2.actor_states = sC.actor_states.set envC.dst
          ((a.on_msg envC.dst st envC.src envC.msg).state.getD st) ∧
        (sysC.duplicating_network = DuplicatingNetwork.No →
          d.2.network = ((a.on_msg envC.dst st envC.src envC.msg).commands.foldl
            (applyCommand envC.dst)
            (Network.remove envC sC.network, sC.pending_timers)).1) ∧
        (sysC.duplicating_network = DuplicatingNetwork.Yes →
          d.2.network = ((a.on_msg envC.dst st envC.src envC.msg).commands.foldl
            (applyCommand envC.dst) (sC.network, sC.pending_timers)).1) :=
  c2_deliver_removes_iff_nondup sysC sC stepsC envC (by decide) (by decide)

/-- Modelled from the spec: `Out::broadcast` sends the same message to each
of the given ids, in order. -/
def Out.broadcast {Msg State : Type} (o : Out Msg State)
    (ids : List ModelId) (m : Msg) : Out Msg State :=
  ids.foldl (fun o dst => o.send dst m) o

/-- Modelled from the spec: `majority(participant_count)` — the least count
strictly greater than half, from the actor module absent from src/. -/
def majority (participant_count : Nat) : Nat :=
  participant_count / 2 + 1

/-- Modelled from the spec: the register interface message type
(`RegisterMsg<TestRequestId, TestValue, Internal>` from `actor::register`,
absent from src/), instantiated at `TestRequestId = u64` (a `Nat`) and
`TestValue = char`. -/
inductive RegisterMsg (I : Type) where
  | Put (rid : Nat) (v : Char)
  | Get (rid : Nat)
  | Internal (m : I)
  | PutOk (rid : Nat)
  | GetOk (rid : Nat) (v : Char)
deriving DecidableEq, Repr

/-- `type AbdSeq = (WriteCount, Id)` — a write count paired with the writing
actor's id, ordered lexicographically. -/
abbrev AbdSeq : Type := Nat × ModelId

/-- The derived lexicographic order on `AbdSeq` (Rust tuple `Ord`), weak
form. -/
def seqLe (a b : AbdSeq) : Bool :=
  decide (a.1 < b.1) || (decide (a.1 = b.1) && decide (a.2 ≤ b.2))

/-- The derived lexicographic order on `AbdSeq`, strict form. -/
def seqLt (a b : AbdSeq) : Bool :=
  decide (a.1 < b.1) || (decide (a.1 = b.1) && decide (a.2 < b.2))

/-- The internal ABD protocol messages (`enum AbdMsg`). -/
inductive AbdMsg where
  | Query (rid : Nat)
  | AckQuery (rid : Nat) (seq : AbdSeq) (v : Char)
  | Record (rid : Nat) (seq : AbdSeq) (v : Char)
  | AckRecord (rid : Nat)
deriving DecidableEq, Repr

/-- The request phase of an ABD server (`enum AbdPhase`).  The
`HashableHashMap`/`HashableHashSet` fields are modelled as association lists
in insertion order. -/
inductive AbdPhase where
  | Phase1 (request_id : Nat) (requester_id : ModelId) (write : Option Char)
      (responses : List (ModelId × (AbdSeq × Char)))
  | Phase2 (request_id : Nat) (requester_id : ModelId) (read : Option Char)
      (acks : List ModelId)
deriving DecidableEq, Repr

/-- The state of an ABD server (`struct AbdState`). -/
structure AbdState where
  seq : AbdSeq
  val : Char
  phase : Option AbdPhase
deriving DecidableEq, Repr

/-- `HashableHashMap::insert`: replace the binding in place when the key is
present, otherwise append it. -/
def HMap.insert {α : Type} (k : ModelId) (v : α) :
    List (ModelId × α) → List (ModelId × α)
  | [] => [(k, v)]
  | (k', v') :: rest =>
    if k = k' then (k, v) :: rest else (k', v') :: HMap.insert k v rest

/-- `HashableHashSet::insert`: no change when present, otherwise append. -/
def HSet.insert (k : ModelId) : List ModelId → List ModelId
  | [] => [k]
  | k' :: rest => if k = k' then k' :: rest else k' :: HSet.insert k rest

/-- `responses.into_iter().max_by_key(|(_, (seq, _))| seq)`: the entry with
the maximal sequencer; on ties the later entry in iteration order wins, as
with Rust's `max_by_key`. -/
def maxByKeySeq (l : List (ModelId × (AbdSeq × Char))) :
    Option (ModelId × (AbdSeq × Char)) :=
  l.foldl
    (fun acc x =>
      match acc with
      | none => some x
      | some b => if seqLe b.2.1 x.2.1 then some x else some b)
    none

/-- An ABD server (`struct AbdActor { peers }`). -/
structure AbdActor where
  peers : List ModelId

/-- `AbdActor::on_msg` (linearizable-register.rs lines 58-167).  In the
`AckQuery` quorum branch the source's `unwrap()` of the maximum cannot fail
(the response map then holds at least one entry), so the dead `none` arm
returns an empty output. -/
def AbdActor.on_msg (actor : AbdActor) (id : ModelId) (state : AbdState)
    (src : ModelId) (msg : RegisterMsg AbdMsg) :
    Out (RegisterMsg AbdMsg) AbdState :=
  match msg with
  | RegisterMsg.Put req_id val =>
    if state.phase.isSome then Out.empty
    else
      (Out.empty.broadcast actor.peers
          (RegisterMsg.Internal (AbdMsg.Query req_id))).set_state
        { state with
            phase := some (AbdPhase.Phase1 req_id src (some val)
              (HMap.insert id (state.seq, state.val) [])) }
  | RegisterMsg.Get req_id =>
    if state.phase.isSome then Out.empty
    else
      (Out.empty.broadcast actor.peers
          (RegisterMsg.Internal (AbdMsg.Query req_id))).set_state
        { state with
            phase := some (AbdPhase.Phase1 req_id src none
              (HMap.insert id (state.seq, state.val) [])) }
  | RegisterMsg.Internal (AbdMsg.Query req_id) =>
    Out.empty.send src
      (RegisterMsg.Internal (AbdMsg.AckQuery req_id state.seq state.val))
  | RegisterMsg.Internal (AbdMsg.AckQuery expected_req_id seq val) =>
    match state.phase with
    | some (AbdPhase.Phase1 req_id requester write responses0) =>
      if req_id ≠ expected_req_id then Out.empty
      else if (HMap.insert src (seq, val) responses0).length =
          majority (actor.peers.length + 1) then
        match maxByKeySeq (HMap.insert src (seq, val) responses0) with
        | some m =>
          match write with
          | some v =>
            (Out.empty.broadcast actor.peers
                (RegisterMsg.Internal
                  (AbdMsg.Record req_id (m.2.1.1 + 1, id) v))).set_state
              { seq := (m.2.1.1 + 1, id), val := v,
                phase := some (AbdPhase.Phase2 req_id requester none
                  (HSet.insert id [])) }
          | none =>
            (Out.empty.broadcast actor.peers
                (RegisterMsg.Internal
                  (AbdMsg.Record req_id m.2.1 m.2.2))).set_state
              { seq := m.2.1, val := m.2.2,
                phase := some (AbdPhase.Phase2 req_id requester (some m.2.2)
                  (HSet.insert id [])) }
        | none => Out.empty
      else
        Out.empty.set_state
          { state with
              phase := some (AbdPhase.Phase1 req_id requester write
                (HMap.insert src (seq, val) responses0)) }
    | _ => Out.empty
  | RegisterMsg.Internal (AbdMsg.Record req_id seq val) =>
    let o := Out.empty.send src (RegisterMsg.Internal (AbdMsg.AckRecord req_id))
    if seqLt state.seq seq then
      o.set_state { state with seq := seq, val := val }
    else o
  | RegisterMsg.Internal (AbdMsg.AckRecord expected_req_id) =>
    match state.phase with
    | some (AbdPhase.Phase2 req_id requester read acks0) =>
      if req_id ≠ expected_req_id then Out.empty
      else if (HSet.insert src acks0).length =
          majority (actor.peers.length + 1) then
        (Out.empty.send requester
            (match read with
             | some v => RegisterMsg.GetOk req_id v
             | none => RegisterMsg.PutOk req_id)).set_state
          { state with phase := none }
      else
        Out.empty.set_state
          { state with
              phase := some (AbdPhase.Phase2 req_id requester read
                (HSet.insert src acks0)) }
    | _ => Out.empty.set_state state
  | RegisterMsg.PutOk _ => Out.empty
  | RegisterMsg.GetOk _ _ => Out.empty

theorem broadcast_spec {Msg State : Type} (o : Out Msg State)
    (ids : List ModelId) (m : Msg) :
    (o.broadcast ids m).commands =
        o.commands ++ ids.map (fun dst => Command.Send dst m) ∧
      (o.broadcast ids m).state = o.state := by
  induction ids generalizing o with
  | nil => simp [Out.broadcast]
  | cons dst rest ih =>
    obtain ⟨ih1, ih2⟩ := ih (o.send dst m)
    constructor
    · simpa [Out.broadcast, Out.send] using ih1
    · simpa [Out.broadcast, Out.send] using ih2

theorem broadcast_set_state {Msg State : Type} (o : Out Msg State)
    (ids : List ModelId) (m : Msg) (s : State) :
    (o.broadcast ids m).set_state s =
      ⟨some s, o.commands ++ ids.map (fun dst => Command.Send dst m)⟩ := by
  obtain ⟨h1, h2⟩ := broadcast_spec o ids m
  unfold Out.set_state
  cases hb : o.broadcast ids m with
  | mk ost ocmds =>
    rw [hb] at h1
    simp at h1
    simp [h1]

/-- Claim C9: in the ABD `AckQuery` branch, on reaching a quorum: the write
path (a pending `Put`) stores the client's payload as the new value with
sequencer `(max_seq.0 + 1, id)`, while the read path (a pending `Get`) keeps
the stored value of maximal sequencer unmodified as both the new stored
value and the recorded read result; in both cases the corresponding
`Record(req_id, seq, val)` is broadcast to all peers. -/
theorem c9_ackquery_quorum_paths (actor : AbdActor) (id : ModelId)
    (state : AbdState) (src : ModelId) (rid : Nat) (seq : AbdSeq) (val : Char)
    (requester : ModelId) (write : Option Char)
    (responses0 : List (ModelId × (AbdSeq × Char)))
    (mid : ModelId) (mseq : AbdSeq) (mval : Char)
    (hphase : state.phase = some (AbdPhase.Phase1 rid requester write responses0))
    (hq : (HMap.insert src (seq, val) responses0).length =
      majority (actor.peers.length + 1))
    (hmax : maxByKeySeq (HMap.insert src (seq, val) responses0) =
      some (mid, (mseq, mval))) :
    (∀ v, write = some v →
      actor.on_msg id state src
          (RegisterMsg.Internal (AbdMsg.AckQuery rid seq val)) =
        { state := some { seq := (mseq.1 + 1, id), val := v,
                          phase := some (AbdPhase.Phase2 rid requester none [id]) },
          commands := actor.peers.map (fun p => Command.Send p
            (RegisterMsg.Internal (AbdMsg.Record rid (mseq.1 + 1, id) v))) }) ∧
    (write = none →
      actor.on_msg id state src
          (RegisterMsg.Internal (AbdMsg.AckQuery rid seq val)) =
        { state := some { seq := mseq, val := mval,
                          phase := some (AbdPhase.Phase2 rid requester (some mval) [id]) },
          commands := actor.peers.map (fun p => Command.Send p
            (RegisterMsg.Internal (AbdMsg.Record rid mseq mval))) }) := by
  constructor
  · intro v hw
    subst hw
    simp only [AbdActor.on_msg, hphase]
    rw [if_neg (by simp), if_pos hq, hmax]
    simp [broadcast_set_state, Out.empty, HSet.insert]
  · intro hw
    subst hw
    simp only [AbdActor.on_msg, hphase]
    rw [if_neg (by simp), if_pos hq, hmax]
    simp [broadcast_set_state, Out.empty, HSet.insert]

/-- A concrete two-server ABD actor (the server with id 1, peered with
server 0). -/
def abdActorW : AbdActor := ⟨[0]⟩

/-- Server 1 mid-`Put(3, 'B')`: phase 1 with its own response recorded. -/
def abdStateW : AbdState where
  seq := (0, 0)
  val := 'A'
  phase := some (AbdPhase.Phase1 3 5 (some 'B') [(1, ((0, 0), 'A'))])

theorem c9_ackquery_quorum_paths_witness :
    abdActorW.on_msg 1 abdStateW 0
        (RegisterMsg.Internal (AbdMsg.AckQuery 3 (0, 0) 'Z')) =
      { state := some { seq := (1, 1), val := 'B',
                        phase := some (AbdPhase.Phase2 3 5 none [1]) },
        commands := [Command.Send 0
          (RegisterMsg.Internal (AbdMsg.Record 3 (1, 1) 'B'))] } :=
  (c9_ackquery_quorum_paths abdActorW 1 abdStateW 0 3 (0, 0) 'Z' 5 (some 'B')
      [(1, ((0, 0), 'A'))] 0 (0, 0) 'Z' rfl (by decide) (by decide)).1 'B' rfl
